import Mathlib

/-!
Verification of the TLI drop-tracker core (tli-tracker).

A shallow embedding in Lean 4 of the event parser (`app/log_parser.py`),
the inventory tracker (`app/bag_state.py`), the price estimator
(`app/price_manager.py`) and the session engine (`app/tracker.py`) of the
tli-tracker repository, together with theorems settling the behavioural
claims about them.

Modelling conventions:
* Python strings are `List Char` (named `Str` below); the compiled regular
  expressions of `log_parser.py` are embedded as specialised character-level
  matchers whose backtracking behaviour mirrors the Python `re` engine on
  those concrete patterns.
* Python `dict`s are association lists without duplicate keys; assignment
  replaces in place (preserving insertion order) or appends, exactly like
  CPython dicts.
* Python `float` arithmetic is modelled by exact rational arithmetic (`ℚ`);
  the decimal literals 0.05, 0.01, 0.6745, 3.5 of the source become the
  corresponding rationals, and `round(x, 4)` becomes round-half-to-even at
  four decimal places over `ℚ`.
* Wall-clock timestamps (`datetime.now()`) are abstract ticks (`ℕ`) passed
  in as parameters; persistence (`save_session`) is modelled by returning
  the session object that was handed to the store.
-/

namespace TLI

/-- Python strings, viewed as lists of characters. -/
abbrev Str := List Char

/-- The ASCII apostrophe (code 39), spelled out so scene literals can be
assembled without quoting issues. -/
def quoteC : Char := Char.ofNat 39

/-! ## Association lists: the embedding of Python `dict` -/

section Dict

variable {α β : Type} [DecidableEq α]

/-- The `d.get(k)`: the value stored under the first (unique) occurrence of `k`. -/
def dget : List (α × β) → α → Option β
  | [], _ => none
  | kv :: t, k => if kv.1 = k then some kv.2 else dget t k

/-- The `d[k] = v`: replace in place if the key is present, else append —
CPython dict assignment semantics (insertion order preserved). -/
def dput : List (α × β) → α → β → List (α × β)
  | [], k, v => [(k, v)]
  | kv :: t, k, v => if kv.1 = k then (k, v) :: t else kv :: dput t k v

/-- The keys of the dict, in insertion order. -/
def dkeys (l : List (α × β)) : List α := l.map Prod.fst

/-- The `d.get(k, 0)`. -/
def dget0 [Zero β] (l : List (α × β)) (k : α) : β := (dget l k).getD 0

/-- The `d[k] = d.get(k, 0) + v`. -/
def dbump (l : List (α × ℤ)) (k : α) (v : ℤ) : List (α × ℤ) :=
  dput l k (dget0 l k + v)

end Dict

/-! ## Event parser (`app/log_parser.py`)

Each compiled regular expression of `LogParser` is embedded as a
specialised matcher over `Str`.  `matchAt`-style functions attempt a match
anchored at the head of the string (mirroring one attempt of the `re`
engine at one start position, including the backtracking that is actually
reachable for these concrete patterns); `search`-style functions scan
start positions left to right, as `re.search`/`re.finditer` do. -/

/-- The `BagModifyEvent` of `log_parser.py`.  Quantities are Python `int`s
(arbitrary precision), modelled as `ℤ`; parsed values are always `≥ 0`. -/
structure BagModifyEvent where
  page_id : ℕ
  slot_id : ℕ
  item_id : String
  quantity : ℤ
deriving DecidableEq, Repr

/-- The `MapChangeEvent` of `log_parser.py`.  Note: its only field is
`entering`; the class declares no league-zone flag. -/
structure MapChangeEvent where
  entering : Bool
deriving DecidableEq, Repr

/-- The `PriceDataEvent` of `log_parser.py`. -/
structure PriceDataEvent where
  item_id : String
  prices : List ℚ
  average_price : ℚ
deriving DecidableEq, Repr

/-- Python's `\s` (ASCII whitespace as it appears in these logs). -/
def isSpaceC (c : Char) : Bool :=
  c = ' ' || c = '\t' || c = '\n' || c = '\r' || c = Char.ofNat 11 || c = Char.ofNat 12

/-- A character matched by `[\d.]`. -/
def isNumDotC (c : Char) : Bool := c.isDigit || c = '.'

/-- Match a literal at the head of the string, returning the remainder. -/
def dropLit : Str → Str → Option Str
  | [], s => some s
  | _ :: _, [] => none
  | c :: lt, x :: xs => if x = c then dropLit lt xs else none

/-- Split off a maximal (greedy) run of decimal digits, `\d*`. -/
def spanDigits (s : Str) : Str × Str :=
  (s.takeWhile Char.isDigit, s.dropWhile Char.isDigit)

/-- The numeric value of a digit run (`int(...)` on a `\d+` group). -/
def natVal (s : Str) : ℕ := s.foldl (fun a c => 10 * a + (c.toNat - 48)) 0

/-- The `float(...)` applied to a `[\d.]+` group: at most one dot and at least
one digit, otherwise Python raises `ValueError`.  The exact decimal value
is returned (floats modelled as rationals). -/
def parseFloatQ (g : Str) : Option ℚ :=
  let ip := g.takeWhile (fun c => !(c = '.'))
  let rest := g.dropWhile (fun c => !(c = '.'))
  match rest with
  | [] => some (natVal ip)
  | _ :: fp =>
    if fp.any (fun c => c = '.') then none
    else if ip = [] && fp = [] then none
    else some ((natVal ip : ℚ) + (natVal fp : ℚ) / ((10 : ℚ) ^ fp.length))

/-- Substring containment, Python's `needle in haystack`. -/
def containsSub (pat : Str) : Str → Bool
  | [] => (dropLit pat []).isSome
  | c :: t => if (dropLit pat (c :: t)).isSome then true else containsSub pat t

/-! ### The price-search header pattern

`XchgSearchPrice----SynId = (\d+).*?\+refer \[(\d+)\]` (no DOTALL: the
lazy gap cannot cross a newline). -/

def litSynId : Str := ("XchgSearchPrice----SynId = ").toList

def litRefer : Str := ("+refer [").toList

/-- One attempt of `\+refer \[(\d+)\]` anchored here. -/
def tryRefer (s : Str) : Option (Str × Str) :=
  match dropLit litRefer s with
  | none => none
  | some r =>
    let (ds, r2) := spanDigits r
    if ds = [] then none
    else
      match r2 with
      | c :: r3 => if c = ']' then some (ds, r3) else none
      | [] => none

/-- The lazy scan `.*?\+refer \[(\d+)\]`: try a match at each position,
consuming only non-newline characters, retrying on partial failure —
exactly the reachable backtracking of the Python engine. -/
def referScan : Str → Option (Str × Str)
  | [] => tryRefer []
  | c :: t =>
    match tryRefer (c :: t) with
    | some r => some r
    | none => if c = '\n' then none else referScan t

/-- One attempt of the full header pattern anchored here; yields the
`SynId` digits, the `refer` (item id) digits, and the rest after the
match end. -/
def headerMatchAt (s : Str) : Option (Str × Str × Str) :=
  match dropLit litSynId s with
  | none => none
  | some r =>
    let (ds, r2) := spanDigits r
    if ds = [] then none
    else
      match referScan r2 with
      | none => none
      | some (item, r3) => some (ds, item, r3)

/-- Leftmost header match (`finditer` step / `search`). -/
def searchHeader : Str → Option (Str × Str × Str)
  | [] => headerMatchAt []
  | c :: t =>
    match headerMatchAt (c :: t) with
    | some r => some r
    | none => searchHeader t

/-- Start index of the leftmost header match (`match.start()` of the next
header, used to delimit a price data block). -/
def searchHeaderStart : Str → Option ℕ
  | [] => (headerMatchAt []).map (fun _ => 0)
  | c :: t =>
    match headerMatchAt (c :: t) with
    | some _ => some 0
    | none => (searchHeaderStart t).map (· + 1)

/-! ### The price-value pattern `\+\d+\s+\[([\d.]+)\]` -/

/-- One attempt of the price-value pattern anchored here; yields the
`[\d.]+` group and the rest after the match. -/
def priceMatchAt : Str → Option (Str × Str)
  | '+' :: r =>
    let (ds, r2) := spanDigits r
    if ds = [] then none
    else
      let ws := r2.takeWhile isSpaceC
      let r3 := r2.dropWhile isSpaceC
      if ws = [] then none
      else
        match r3 with
        | '[' :: r4 =>
          let g := r4.takeWhile isNumDotC
          let r5 := r4.dropWhile isNumDotC
          if g = [] then none
          else
            match r5 with
            | ']' :: r6 => some (g, r6)
            | _ => none
        | _ => none
  | _ => none

/-- Errors a chunk-processing call can raise (Python exceptions). -/
inductive PyError where
  /-- The `AttributeError`: attribute access on an object lacking the field. -/
  | attributeError
  /-- The `ValueError`: e.g. `float()` applied to a malformed numeric string. -/
  | valueError
deriving DecidableEq, Repr

/-- The `finditer` of the price-value pattern plus `float` conversion, as in
the list comprehension of `parse_price_search`; a malformed group raises. -/
def findPricesF : ℕ → Str → Except PyError (List ℚ)
  | 0, _ => .ok []
  | fuel + 1, s =>
    match priceMatchAt s with
    | some (g, r) =>
      match parseFloatQ g with
      | none => .error .valueError
      | some q =>
        match findPricesF fuel r with
        | .error e => .error e
        | .ok rest => .ok (q :: rest)
    | none =>
      match s with
      | [] => .ok []
      | _ :: t => findPricesF fuel t

/-- All price values in a data block. -/
def findPrices (s : Str) : Except PyError (List ℚ) := findPricesF (s.length + 1) s

/-! ### Rounding

Python's `round(x, 4)` rounds half to even at four decimal places. -/

/-- Round half to even to the nearest integer. -/
def rhe (q : ℚ) : ℤ :=
  let f := ⌊q⌋
  let r := q - (f : ℚ)
  if r < 1 / 2 then f
  else if 1 / 2 < r then f + 1
  else if 2 ∣ f then f else f + 1

/-- The `round(x, 4)`. -/
def round4 (q : ℚ) : ℚ := (rhe (q * 10000) : ℚ) / 10000

/-! ### `parse_price_search` -/

/-- The pinned currency id, skipped by the price-search parse. -/
def currencyL : Str := ("100300").toList

/-- The `finditer` loop of `parse_price_search`: find a header, delimit
its data block by the start of the next header (or end of text), extract
the prices, keep the first 30 and average them; searches whose `refer`
item is the currency id are skipped before any block handling.  `fuel`
dominates the number of headers; each found header consumes at least the
header literal, so `text.length + 1` always suffices. -/
def parsePriceLoop : ℕ → Str → Except PyError (List PriceDataEvent)
  | 0, _ => .ok []
  | fuel + 1, s =>
    match searchHeader s with
    | none => .ok []
    | some (_syn, item, rest) =>
      if item = currencyL then parsePriceLoop fuel rest
      else
        let blockLen := (searchHeaderStart rest).getD rest.length
        match findPrices (rest.take blockLen) with
        | .error e => .error e
        | .ok prices =>
          match parsePriceLoop fuel rest with
          | .error e => .error e
          | .ok tailEvents =>
            if prices = [] then .ok tailEvents
            else
              let kept := prices.take 30
              .ok ({ item_id := String.mk item,
                     prices := kept,
                     average_price := round4 (kept.sum / (kept.length : ℚ)) } :: tailEvents)

/-- The `LogParser.parse_price_search`.  A `ValueError` from `float()` on a
malformed bracketed group propagates out of the call, as in Python. -/
def parse_price_search (s : Str) : Except PyError (List PriceDataEvent) :=
  parsePriceLoop (s.length + 1) s

/-! ### The scene-change pattern

`PageApplyBase@ _UpdateGameEnd:.*?LastSceneName = World'/Game/Art/Maps/([^']+)'.*?NextSceneName = World'/Game/Art/Maps/([^']+)'` with DOTALL. -/

def litPageApply : Str := ("PageApplyBase@ _UpdateGameEnd:").toList

def litLastScene : Str :=
  ("LastSceneName = World").toList ++ [quoteC] ++ ("/Game/Art/Maps/").toList

def litNextScene : Str :=
  ("NextSceneName = World").toList ++ [quoteC] ++ ("/Game/Art/Maps/").toList

/-- One attempt of `NextSceneName = World'/Game/Art/Maps/([^']+)'`
anchored here. -/
def tryNextScene (s : Str) : Option Str :=
  match dropLit litNextScene s with
  | none => none
  | some r =>
    let nm := r.takeWhile (fun c => !(c = quoteC))
    let r2 := r.dropWhile (fun c => !(c = quoteC))
    if nm = [] then none
    else
      match r2 with
      | c :: _ => if c = quoteC then some nm else none
      | [] => none

/-- The second lazy gap (DOTALL: may cross newlines) followed by the
next-scene capture. -/
def scanNextScene : Str → Option Str
  | [] => tryNextScene []
  | c :: t =>
    match tryNextScene (c :: t) with
    | some r => some r
    | none => scanNextScene t

/-- One attempt of `LastSceneName = World'/Game/Art/Maps/([^']+)'`
anchored here, returning the capture and the rest. -/
def tryLastScene (s : Str) : Option (Str × Str) :=
  match dropLit litLastScene s with
  | none => none
  | some r =>
    let nm := r.takeWhile (fun c => !(c = quoteC))
    let r2 := r.dropWhile (fun c => !(c = quoteC))
    if nm = [] then none
    else
      match r2 with
      | c :: r3 => if c = quoteC then some (nm, r3) else none
      | [] => none

/-- The first lazy gap: find the last-scene capture, then the next-scene
part; if the latter fails the engine backtracks the lazy gap and resumes
the scan one character further. -/
def scanLastScene : Str → Option (Str × Str)
  | [] => none
  | c :: t =>
    match tryLastScene (c :: t) with
    | some (nm, r3) =>
      match scanNextScene r3 with
      | some nx => some (nm, nx)
      | none => scanLastScene t
    | none => scanLastScene t

/-- One attempt of the whole scene-change pattern anchored here. -/
def sceneMatchAt (s : Str) : Option (Str × Str) :=
  match dropLit litPageApply s with
  | none => none
  | some r => scanLastScene r

/-- The `re.search` over the scene-change pattern: leftmost match. -/
def searchScene : Str → Option (Str × Str)
  | [] => sceneMatchAt []
  | c :: t =>
    match sceneMatchAt (c :: t) with
    | some r => some r
    | none => searchScene t

/-- The `LogParser.REFUGE_SCENE`. -/
def refugeL : Str := ("01SD/XZ_YuJinZhiXiBiNanSuo200").toList

/-- The `LogParser.parse_map_change`: classify the first scene transition of
the chunk by which side of it contains the refuge scene. -/
def parse_map_change (s : Str) : Option MapChangeEvent :=
  match searchScene s with
  | none => none
  | some (lastScene, nextScene) =>
    if containsSub refugeL lastScene && !(containsSub refugeL nextScene) then
      some { entering := true }
    else if !(containsSub refugeL lastScene) && containsSub refugeL nextScene then
      some { entering := false }
    else none

/-! ### The bag patterns

`BagMgr@:Modfy BagItem PageId = (\d+) SlotId = (\d+) ConfigBaseId = (\d+) Num = (\d+)`
and the same shape under the `InitBagData` marker. -/

def litBagModify : Str := ("BagMgr@:Modfy BagItem PageId = ").toList

def litBagInit : Str := ("BagMgr@:InitBagData PageId = ").toList

def litSlotId : Str := (" SlotId = ").toList

def litConfigBaseId : Str := (" ConfigBaseId = ").toList

def litNum : Str := (" Num = ").toList

/-- One attempt of a bag record (under the given marker) anchored here. -/
def bagMatchAt (marker : Str) (s : Str) : Option (BagModifyEvent × Str) :=
  match dropLit marker s with
  | none => none
  | some r =>
    let (p, r1) := spanDigits r
    if p = [] then none
    else
      match dropLit litSlotId r1 with
      | none => none
      | some r2 =>
        let (sl, r3) := spanDigits r2
        if sl = [] then none
        else
          match dropLit litConfigBaseId r3 with
          | none => none
          | some r4 =>
            let (it, r5) := spanDigits r4
            if it = [] then none
            else
              match dropLit litNum r5 with
              | none => none
              | some r6 =>
                let (nm, r7) := spanDigits r6
                if nm = [] then none
                else
                  some ({ page_id := natVal p, slot_id := natVal sl,
                          item_id := String.mk it, quantity := (natVal nm : ℤ) }, r7)

/-- The `finditer` over a bag pattern. -/
def bagFinditer (marker : Str) : ℕ → Str → List BagModifyEvent
  | 0, _ => []
  | fuel + 1, s =>
    match bagMatchAt marker s with
    | some (e, r) => e :: bagFinditer marker fuel r
    | none =>
      match s with
      | [] => []
      | _ :: t => bagFinditer marker fuel t

/-- The `LogParser.parse_bag_modifications`. -/
def parse_bag_modifications (s : Str) : List BagModifyEvent :=
  bagFinditer litBagModify (s.length + 1) s

/-- The `LogParser.parse_bag_init`. -/
def parse_bag_init (s : Str) : List BagModifyEvent :=
  bagFinditer litBagInit (s.length + 1) s

/-! ## Inventory tracker (`app/bag_state.py`)

The Python slot dict is keyed by the string `f"{page}:{slot}:{item}"`.
Because page and slot render as plain digit strings, that formatting is
injective on `(page, slot, item)` triples, so slot keys are modelled as
the triples themselves; the `slot_key.split(":")[2]` extraction used by
the quantity-summing loops then reads the item component up to its first
colon (for the numeric item ids the logs produce, the whole component). -/

/-- A slot key: (page id, slot id, item id). -/
abbrev SlotKey := ℕ × ℕ × String

/-- The `slot_key.split(":")[2]` on a key built as `f"{page}:{slot}:{item}"`:
the item component up to its first colon. -/
def keyItem (k : SlotKey) : String :=
  String.mk (k.2.2.toList.takeWhile (fun c => !(c = ':')))

/-- The state of `BagState`. -/
structure BagSt where
  slots : List (SlotKey × ℤ)
  baseline : List (String × ℤ)
  initialized : Bool
deriving DecidableEq, Repr

/-- The `BagState.__init__`. -/
def emptyBag : BagSt := ⟨[], [], false⟩

/-- Per-item totals of the slot dict, computed the way both
`reset_baseline` and `process_modifications` do: one `dict.get(...) + q`
accumulation pass over the slot entries, keyed by `split(":")[2]`. -/
def totalsOf (slots : List (SlotKey × ℤ)) : List (String × ℤ) :=
  slots.foldl (fun m kv => dbump m (keyItem kv.1) kv.2) []

/-- The loop body of `BagState.initialize`: store the slot quantity and
bump the per-item baseline sum. -/
def initStep (acc : List (SlotKey × ℤ) × List (String × ℤ)) (e : BagModifyEvent) :
    List (SlotKey × ℤ) × List (String × ℤ) :=
  (dput acc.1 (e.page_id, e.slot_id, e.item_id) e.quantity,
   dbump acc.2 e.item_id e.quantity)

/-- The `BagState.initialize`: clear both dicts, then run the loop; returns
`len(self.baseline)` and the new state. -/
def initBagData (_st : BagSt) (items : List BagModifyEvent) : ℕ × BagSt :=
  let p := items.foldl initStep ([], [])
  ((dkeys p.2).length, ⟨p.1, p.2, true⟩)

/-- The `BagState.reset_baseline`: rebuild the baseline from the slot state;
the slot dict is not touched. -/
def reset_baseline (st : BagSt) : BagSt :=
  ⟨st.slots, totalsOf st.slots, st.initialized⟩

/-- The loop body of `process_modifications` over `all_item_ids`: read the
current total and the (live) baseline entry; on a nonzero difference,
record it in `changes` and advance the baseline. -/
def diffStep (totals : List (String × ℤ))
    (acc : List (String × ℤ) × List (String × ℤ)) (it : String) :
    List (String × ℤ) × List (String × ℤ) :=
  let cur := dget0 totals it
  let bas := dget0 acc.2 it
  if cur - bas = 0 then acc
  else (dput acc.1 it (cur - bas), dput acc.2 it cur)

/-- The `BagState.process_modifications` (the spec's `apply_and_diff`):
last-write-wins slot updates, recompute totals, diff against baseline over
the union of item ids, advancing the baseline of changed items; returns
the `changes` dict and the new state.  Not-initialized states return an
empty dict and are untouched. -/
def process_modifications (st : BagSt) (mods : List BagModifyEvent) :
    List (String × ℤ) × BagSt :=
  if st.initialized = false then ([], st)
  else
    let slots2 := mods.foldl
      (fun sl e => dput sl (e.page_id, e.slot_id, e.item_id) e.quantity) st.slots
    let totals := totalsOf slots2
    let ids := (dkeys totals ++ dkeys st.baseline).dedup
    let r := ids.foldl (diffStep totals) ([], st.baseline)
    (r.1, ⟨slots2, r.2, true⟩)

/-- The `BagState.clear`. -/
def clearBag (_st : BagSt) : BagSt := ⟨[], [], false⟩

/-! ## Price estimator (`app/price_manager.py`)

The price database maps item ids to price values; the `updated_at`
timestamps the Python stores alongside serve only the freshness display
and are not modelled. -/

/-- The price database state. -/
abbrev PMSt := List (String × ℚ)

/-- The `PriceManager.FIXED_PRICES`: the FE currency is pinned at 1.0. -/
def FIXED_PRICES : PMSt := [("100300", 1)]

/-- The `PriceManager.set_price`: a no-op for pinned items, otherwise store
the value rounded to four decimals. -/
def set_price (pm : PMSt) (item : String) (v : ℚ) : PMSt :=
  if (dget FIXED_PRICES item).isSome then pm
  else dput pm item (round4 v)

/-- The `PriceManager.get_price`. -/
def get_price (pm : PMSt) (item : String) : Option ℚ := dget pm item

/-- The external configuration the estimator and engine read
(`load_config()`), with the tax fields already defaulted. -/
structure Config where
  tax_enabled : Bool
  tax_rate : ℚ
  /-- The item catalog (`get_item_name`): `none` for ids outside the
  database, which the engine skips as `Unknown (...)`. -/
  catalog : String → Option String

/-- The `PriceManager.get_price_with_tax`: apply the auction fee when enabled;
the currency id is tax-exempt. -/
def get_price_with_tax (cfg : Config) (pm : PMSt) (item : String) : Option ℚ :=
  match dget pm item with
  | none => none
  | some p =>
    if cfg.tax_enabled && !(item = ("100300" : String)) then
      some (p * (1 - cfg.tax_rate))
    else some p

/-- Python `sorted` on the sample list (any sorted permutation; sorted
permutations of rationals are unique). -/
def sortedQ (l : List ℚ) : List ℚ := l.insertionSort (· ≤ ·)

/-- The median as `update_from_search` computes it: middle element of the
sorted list, or the mean of the two middle elements for even length. -/
def medianOf (l : List ℚ) : ℚ :=
  let s := sortedQ l
  let n := s.length
  if n % 2 = 0 then (s.getD (n / 2 - 1) 0 + s.getD (n / 2) 0) / 2
  else s.getD (n / 2) 0

/-- The absolute deviations from the median, over the sorted samples. -/
def deviationsOf (l : List ℚ) : List ℚ :=
  (sortedQ l).map (fun p => |p - medianOf l|)

/-- The MAD: the median of the deviations (the code sorts them and takes
the middle, which is `medianOf`). -/
def madOf (l : List ℚ) : ℚ := medianOf (deviationsOf l)

/-- The retained samples of the `≥ 5`-sample path: the zero-MAD branch
filters by a fixed relative threshold (5% of the median, or the 0.01
floor), the nonzero-MAD branch by modified z-score at most 3.5. -/
def filteredOf (l : List ℚ) : List ℚ :=
  let s := sortedQ l
  let med := medianOf l
  let mad := madOf l
  if mad = 0 then
    let thr := if 0 < med then med * (5 / 100) else 1 / 100
    s.filter (fun p => decide (|p - med| ≤ thr))
  else
    s.filter (fun p => decide (6745 / 10000 * |p - med| / mad ≤ 7 / 2))

/-- The `PriceManager.update_from_search`: pinned items return their pinned
value untouched; an empty batch returns 0.0; fewer than 5 samples return
the median; otherwise the mean of the MAD-filtered samples (median if the
filter removed everything).  Every non-pinned, non-empty path persists the
result via `set_price`.  Returns (estimate, new state). -/
def update_from_search (pm : PMSt) (item : String) (prices : List ℚ) : ℚ × PMSt :=
  match dget FIXED_PRICES item with
  | some v => (v, pm)
  | none =>
    if prices = [] then (0, pm)
    else if prices.length < 5 then
      let m := medianOf prices
      (m, set_price pm item m)
    else
      let med := medianOf prices
      let filtered := filteredOf prices
      let avg := if filtered = [] then med else filtered.sum / (filtered.length : ℚ)
      (avg, set_price pm item avg)

/-! ## Data model (`app/models.py`) and session engine (`app/tracker.py`)

Timestamps are abstract ticks; the UI callbacks (`_notify`) carry no state
and are not modelled; session persistence (`save_session`) is modelled by
returning the session object handed to the store. -/

/-- The `models.Drop`. -/
structure Drop where
  item_id : String
  quantity : ℤ
  timestamp : ℕ
  value : Option ℚ
deriving DecidableEq, Repr

/-- The `models.MapRun` (derived time/value properties omitted). -/
structure MapRun where
  started_at : ℕ
  ended_at : Option ℕ
  drops : List Drop
  is_league_zone : Bool
  investment : ℚ
deriving DecidableEq, Repr

/-- The `models.Session` (derived statistics omitted). -/
structure Session where
  id : String
  started_at : ℕ
  ended_at : Option ℕ
  maps : List MapRun
deriving DecidableEq, Repr

/-- The engine state: `models.TrackerState` plus the tracker's own
`BagState`, `PriceManager` and `_awaiting_init` flag (the display mode
plays no role in the claims and is omitted). -/
structure TrackerSt where
  is_initialized : Bool
  is_in_map : Bool
  current_map : Option MapRun
  current_session : Option Session
  bag : BagSt
  prices : PMSt
  awaiting_init : Bool
deriving DecidableEq, Repr

/-- A fresh tracker (`Tracker.__init__`, with an empty price store). -/
def freshTracker : TrackerSt :=
  ⟨false, false, none, none, emptyBag, [], false⟩

/-- The `Tracker._on_map_enter`: unconditionally reset the bag baseline, open
a fresh `MapRun` stamped `now` with the given league flag, lazily create a
session (`sid` is the id the session manager would mint), and set
`is_in_map`. -/
def on_map_enter (st : TrackerSt) (now : ℕ) (sid : String) (flag : Bool) : TrackerSt :=
  { st with
    is_in_map := true
    bag := reset_baseline st.bag
    current_map := some ⟨now, none, [], flag, 0⟩
    current_session := some (st.current_session.getD ⟨sid, now, none, []⟩) }

/-- The `Tracker._on_map_exit`: stamp the current map (if any), append it to
the session and persist; clear the in-map state.  Returns the new state
and the session handed to `save_session` (if any). -/
def on_map_exit (st : TrackerSt) (now : ℕ) : TrackerSt × Option Session :=
  match st.current_map with
  | some m =>
    let m2 := { m with ended_at := some now }
    match st.current_session with
    | some ses =>
      let ses2 := { ses with maps := ses.maps ++ [m2] }
      ({ st with is_in_map := false, current_map := none,
                 current_session := some ses2 }, some ses2)
    | none => ({ st with is_in_map := false, current_map := none }, none)
  | none => ({ st with is_in_map := false, current_map := none }, none)

/-- The per-drop loop of `Tracker._backfill_prices`: rewrite the value of
every drop of the given item to price × quantity. -/
def backfillDrops (item : String) (p : ℚ) : List Drop → List Drop
  | [] => []
  | d :: t =>
    (if d.item_id = item then { d with value := some (p * (d.quantity : ℚ)) } else d)
      :: backfillDrops item p t

/-- The per-map loop of `Tracker._backfill_prices` over the session's
closed maps. -/
def backfillMaps (item : String) (p : ℚ) : List MapRun → List MapRun
  | [] => []
  | m :: t => { m with drops := backfillDrops item p m.drops } :: backfillMaps item p t

/-- The `Tracker._backfill_prices`: look up the tax-adjusted price (absent →
nothing to backfill); rewrite matching drops in the open map and in every
map of the current session; persist the session if one exists.  Returns
the new state and the session handed to `save_session`. -/
def backfill_prices (cfg : Config) (st : TrackerSt) (item : String) :
    TrackerSt × Option Session :=
  match get_price_with_tax cfg st.prices item with
  | none => (st, none)
  | some p =>
    let st2 := { st with
      current_map := st.current_map.map
        (fun (m : MapRun) => { m with drops := backfillDrops item p m.drops }) }
    match st2.current_session with
    | some ses =>
      let ses2 := { ses with maps := backfillMaps item p ses.maps }
      ({ st2 with current_session := some ses2 }, some ses2)
    | none => (st2, none)

/-- The per-item loop of `Tracker._process_drops`: skip ids outside the
catalog; price the delta (`value = price * quantity if price else None`,
so a 0.0 price also yields a null value) and append the drop to the open
map. -/
def processDrops (cfg : Config) (now : ℕ) (st : TrackerSt)
    (changes : List (String × ℤ)) : TrackerSt :=
  match st.current_map with
  | none => st
  | some _ =>
    changes.foldl (fun st' ch =>
      match cfg.catalog ch.1 with
      | none => st'
      | some _ =>
        let value : Option ℚ :=
          match get_price_with_tax cfg st'.prices ch.1 with
          | some p => if p = 0 then none else some (p * (ch.2 : ℚ))
          | none => none
        let d : Drop := ⟨ch.1, ch.2, now, value⟩
        let upd := fun (m : MapRun) => { m with drops := m.drops ++ [d] }
        { st' with current_map := Option.map upd st'.current_map }) st

/-- The attribute access `map_event.is_league_zone` performed by
`Tracker.process_log_chunk` (lines 72 and 74 of `tracker.py`).
`MapChangeEvent` as defined in `log_parser.py` has only the `entering`
field, so in Python this access raises `AttributeError` for every event;
the embedding makes that explicit. -/
def readLeagueZoneFlag (_e : MapChangeEvent) : Except PyError Bool :=
  .error .attributeError

/-- The `Tracker.MIN_INIT_ITEMS`. -/
def MIN_INIT_ITEMS : ℕ := 20

/-- The `Tracker.process_log_chunk`: the four phases in source order — bag
initialization, map change, bag modifications, price searches.  A raised
exception aborts the chunk (and would propagate out of the watcher
callback), leaving the state as it was at the raise point unreachable to
the caller; the embedding surfaces it as `.error`. -/
def process_log_chunk (cfg : Config) (now : ℕ) (sid : String)
    (st : TrackerSt) (s : Str) : Except PyError TrackerSt :=
  let st1 :=
    if st.awaiting_init || !st.is_initialized then
      let items := parse_bag_init s
      if MIN_INIT_ITEMS ≤ items.length then
        let r := initBagData st.bag items
        { st with bag := r.2, is_initialized := true, awaiting_init := false }
      else st
    else st
  let st2E : Except PyError TrackerSt :=
    match parse_map_change s with
    | some e =>
      match readLeagueZoneFlag e with
      | .error err => .error err
      | .ok flag =>
        if e.entering then .ok (on_map_enter st1 now sid flag)
        else .ok (on_map_exit st1 now).1
    | none => .ok st1
  match st2E with
  | .error e => .error e
  | .ok st2 =>
    let st3 :=
      if st2.is_initialized then
        let mods := parse_bag_modifications s
        if mods = [] then st2
        else
          let r := process_modifications st2.bag mods
          let st2b := { st2 with bag := r.2 }
          if r.1 = [] then st2b else processDrops cfg now st2b r.1
      else st2
    match parse_price_search s with
    | .error e => .error e
    | .ok pevents =>
      .ok (pevents.foldl (fun st' e =>
        let r := update_from_search st'.prices e.item_id e.prices
        (backfill_prices cfg { st' with prices := r.2 } e.item_id).1) st3)

/-! ## Named states, chunks and spec-side helpers used by the claims -/

/-- The item-wise sum of slot quantities: the spec-side reading of
"the sum of all slot quantities for that item". -/
def slotSum (slots : List (SlotKey × ℤ)) (it : String) : ℤ :=
  ((slots.filter (fun kv => decide (kv.1.2.2 = it))).map Prod.snd).sum

/-- The inventory consistency invariant: once initialized, the baseline
dict agrees with the per-item totals of the slot dict. -/
def BagInv (st : BagSt) : Prop :=
  st.initialized = true →
    ∀ it : String, dget0 st.baseline it = dget0 (totalsOf st.slots) it

/-- The reachable `BagState`s: everything a sequence of `initialize`,
`reset_baseline`, `apply_and_diff` (`process_modifications`) and `clear`
calls can produce from a fresh instance.  `initialize` calls are
constrained to full-snapshot entry lists: pairwise-distinct slot keys and
colon-free (numeric) item ids, as `InitBagData` dumps provide. -/
inductive ReachableBag : BagSt → Prop where
  | base : ReachableBag emptyBag
  | init (st : BagSt) (entries : List BagModifyEvent)
      (hnd : (entries.map (fun e => ((e.page_id, e.slot_id, e.item_id) : SlotKey))).Nodup)
      (hcf : ∀ e ∈ entries, (':' : Char) ∉ e.item_id.toList) :
      ReachableBag st → ReachableBag (initBagData st entries).2
  | reset (st : BagSt) : ReachableBag st → ReachableBag (reset_baseline st)
  | mods (st : BagSt) (ms : List BagModifyEvent) :
      ReachableBag st → ReachableBag (process_modifications st ms).2
  | clear (st : BagSt) : ReachableBag st → ReachableBag (clearBag st)

/-- The spec-side per-drop backfill: drops of the item get value
price × quantity (null values included), all others are untouched. -/
def bfDrop (item : String) (P : ℚ) (d : Drop) : Drop :=
  if d.item_id = item then { d with value := some (P * (d.quantity : ℚ)) } else d

/-- The spec-side per-map backfill. -/
def bfMap (item : String) (P : ℚ) (m : MapRun) : MapRun :=
  { m with drops := m.drops.map (bfDrop item P) }

/-- The configuration used by concrete engine scenarios: tax disabled,
empty catalog. -/
def cfg0 : Config := ⟨false, 1/8, fun _ => none⟩

/-- A concrete engine state for the C8 witness: one null-valued drop of
item "C" in the open map, one in a closed map of the session, and a
stored price of 5 for "C". -/
def st8 : TrackerSt :=
  { is_initialized := true
    is_in_map := true
    current_map := some ⟨2, none, [⟨"C", 2, 2, none⟩, ⟨"D", 1, 2, some 3⟩], false, 0⟩
    current_session := some ⟨"s", 0, none, [⟨0, some 1, [⟨"C", 3, 0, none⟩], false, 0⟩]⟩
    bag := emptyBag
    prices := [("C", 5)]
    awaiting_init := false }

/-- A concrete engine state that is already InMap, with a drop in the open
run and a non-trivial bag baseline situation. -/
def st9 : TrackerSt :=
  { is_initialized := true
    is_in_map := true
    current_map := some ⟨0, none, [⟨"7", 3, 1, none⟩], false, 0⟩
    current_session := some ⟨"s", 0, none, []⟩
    bag := ⟨[((1, 1, "7"), 3)], [], true⟩
    prices := []
    awaiting_init := false }

deriving instance DecidableEq for Except

/-- A log chunk holding one refuge-to-map scene transition. -/
def c1Chunk : Str :=
  litPageApply ++ (" ").toList ++ litLastScene ++ refugeL ++ [quoteC]
    ++ (" ").toList ++ litNextScene ++ ("02AB/Foo").toList ++ [quoteC]

/-- A chunk holding a price-search request header (correlation id 7,
item 200100) with its result values not yet flushed to the log. -/
def c2ChunkReq : Str := litSynId ++ ("7 +refer [200100]").toList

/-- The follow-up chunk holding the price values of that search. -/
def c2ChunkResp : Str := ("+1 [5.5]").toList

/-- A chunk with one price search (item 200100) and three result values
1, 1, 2, whose exact mean 4/3 is not representable in four decimals. -/
def c10Chunk : Str :=
  litSynId ++ ("1 +refer [200100]").toList ++ ['\n'] ++ ("+1 [1]").toList
    ++ ['\n'] ++ ("+2 [1]").toList ++ ['\n'] ++ ("+3 [2]").toList

/-! ## Supporting lemmas -/

section Dict

variable {α β : Type} [DecidableEq α]

theorem dget_dput_self (l : List (α × β)) (k : α) (v : β) :
    dget (dput l k v) k = some v := by
  induction l with
  | nil => simp [dput, dget]
  | cons kv t ih =>
    by_cases h : kv.1 = k <;> simp [dput, dget, h, ih]

theorem dget_dput_ne (l : List (α × β)) {k k' : α} (v : β) (h : k' ≠ k) :
    dget (dput l k v) k' = dget l k' := by
  have hne : ¬ k = k' := fun hh => h hh.symm
  induction l with
  | nil => simp [dput, dget, hne]
  | cons kv t ih =>
    by_cases hk : kv.1 = k
    · subst hk
      simp [dput, dget, hne]
    · by_cases hk' : kv.1 = k' <;> simp [dput, dget, hk, hk', ih, h]

theorem dget_eq_none_of_not_mem_keys {l : List (α × β)} {k : α}
    (h : k ∉ dkeys l) : dget l k = none := by
  induction l with
  | nil => rfl
  | cons kv t ih =>
    have h1 : ¬ kv.1 = k := by
      intro hh
      exact h (by simp [dkeys, hh])
    have h2 : k ∉ dkeys t := by
      intro hh
      exact h (by simp [dkeys] at hh ⊢; exact Or.inr hh)
    simp [dget, h1, ih h2]

theorem dget0_dput_self [Zero β] (l : List (α × β)) (k : α) (v : β) :
    dget0 (dput l k v) k = v := by
  simp [dget0, dget_dput_self]

theorem dget0_dput_ne [Zero β] (l : List (α × β)) {k k' : α} (v : β) (h : k' ≠ k) :
    dget0 (dput l k v) k' = dget0 l k' := by
  simp [dget0, dget_dput_ne l v h]

theorem dget0_eq_zero_of_not_mem_keys [Zero β] {l : List (α × β)} {k : α}
    (h : k ∉ dkeys l) : dget0 l k = 0 := by
  simp [dget0, dget_eq_none_of_not_mem_keys h]

end Dict

theorem dget0_dbump_self (l : List (String × ℤ)) (k : String) (v : ℤ) :
    dget0 (dbump l k v) k = dget0 l k + v := by
  simp [dbump, dget0_dput_self]

theorem dget0_dbump_ne (l : List (String × ℤ)) {k k' : String} (v : ℤ) (h : k' ≠ k) :
    dget0 (dbump l k v) k' = dget0 l k' := by
  simp [dbump, dget0_dput_ne l _ h]

/-- Evaluating a `dict.get(...) + q` accumulation pass: the entry of `it`
is the initial entry plus the sum of the values of the elements keyed to
`it`. -/
theorem dget0_foldl_dbump {E : Type} (f : E → String) (g : E → ℤ) (l : List E) :
    ∀ (acc : List (String × ℤ)) (it : String),
      dget0 (l.foldl (fun m e => dbump m (f e) (g e)) acc) it
        = dget0 acc it + ((l.filter (fun e => decide (f e = it))).map g).sum := by
  induction l with
  | nil => intro acc it; simp
  | cons e t ih =>
    intro acc it
    by_cases h : f e = it
    · subst h
      simp only [List.foldl_cons, ih, List.filter_cons, decide_eq_true_eq,
        if_pos rfl, dget0_dbump_self, if_true]
      rw [List.map_cons, List.sum_cons]
      ring
    · simp only [List.foldl_cons, ih, List.filter_cons, decide_eq_true_eq,
        if_neg h, dget0_dbump_ne _ _ (Ne.symm h)]

/-- A colon-free character list is untouched by the `split(":")[2]`
extraction. -/
theorem takeWhile_ne_colon_eq_self {l : List Char} (h : (':' : Char) ∉ l) :
    l.takeWhile (fun c => !(c = ':')) = l := by
  induction l with
  | nil => rfl
  | cons c t ih =>
    have h1 : ¬ c = ':' := fun hc => h (by simp [hc])
    have h2 : (':' : Char) ∉ t := fun hc => h (by simp [hc])
    simp [List.takeWhile_cons, h1, ih h2]

/-- For a slot key whose item id contains no colon, `split(":")[2]` is the
item id itself. -/
theorem keyItem_eq_of_no_colon {k : SlotKey} (h : (':' : Char) ∉ k.2.2.toList) :
    keyItem k = k.2.2 := by
  unfold keyItem
  rw [takeWhile_ne_colon_eq_self h]
  cases hk : k.2.2
  rfl



/-! ## C3 -/

/-- Claim C3: for every inventory state whose slot keys carry colon-free
item ids (all ids parsed from the logs are digit strings), immediately
after `reset_baseline()` the baseline entry of every item id equals the
sum of the quantities of all slots holding that item (zero for items held
by no slot), and the slot state and initialized flag are unchanged. -/
theorem c3_reset_baseline_totals (st : BagSt)
    (h : ∀ kv ∈ st.slots, (':' : Char) ∉ kv.1.2.2.toList) :
    (∀ it : String, dget0 (reset_baseline st).baseline it = slotSum st.slots it) ∧
    (reset_baseline st).slots = st.slots ∧
    (reset_baseline st).initialized = st.initialized := by
  refine ⟨fun it => ?_, rfl, rfl⟩
  show dget0 (totalsOf st.slots) it = slotSum st.slots it
  unfold totalsOf slotSum
  rw [dget0_foldl_dbump (fun kv => keyItem kv.1) Prod.snd st.slots [] it]
  have hfeq : st.slots.filter (fun kv => decide (keyItem kv.1 = it))
      = st.slots.filter (fun kv => decide (kv.1.2.2 = it)) := by
    apply List.filter_congr
    intro kv hkv
    rw [keyItem_eq_of_no_colon (h kv hkv)]
  rw [hfeq]
  simp [dget0, dget]

/-- Witness for C3 at a concrete two-slot state. -/
theorem c3_reset_baseline_totals_witness :
    dget0 (reset_baseline ⟨[((1, 1, "7"), 3), ((2, 1, "7"), 4)], [], true⟩).baseline ("7")
      = slotSum [((1, 1, "7"), 3), ((2, 1, "7"), 4)] ("7") :=
  (c3_reset_baseline_totals ⟨[((1, 1, "7"), 3), ((2, 1, "7"), 4)], [], true⟩
    (by decide)).1 ("7")

/-! ## C4 -/

/-- Assigning a fresh key appends the pair. -/
theorem dput_eq_append {α β : Type} [DecidableEq α] :
    ∀ (l : List (α × β)) (k : α) (v : β), k ∉ dkeys l → dput l k v = l ++ [(k, v)] := by
  intro l
  induction l with
  | nil => intro k v _; rfl
  | cons kv t ih =>
    intro k v hk
    have h1 : ¬ kv.1 = k := by
      intro hh
      exact hk (by simp [dkeys, hh])
    have h2 : k ∉ dkeys t := by
      intro hh
      exact hk (by simp [dkeys] at hh ⊢; exact Or.inr hh)
    simp [dput, h1, ih k v h2]

/-- Folding dict assignments of pairwise-fresh keys over a dict appends
them in order. -/
theorem foldl_dput_eq_append {E : Type} (key : E → SlotKey) (qty : E → ℤ) :
    ∀ (entries : List E) (acc : List (SlotKey × ℤ)),
      (entries.map key).Nodup → (∀ e ∈ entries, key e ∉ dkeys acc) →
      entries.foldl (fun m e => dput m (key e) (qty e)) acc
        = acc ++ entries.map (fun e => (key e, qty e)) := by
  intro entries
  induction entries with
  | nil => intro acc _ _; simp
  | cons e t ih =>
    intro acc hnd hfresh
    have hput : dput acc (key e) (qty e) = acc ++ [(key e, qty e)] :=
      dput_eq_append acc _ _ (hfresh e (by simp))
    have hnd' : (t.map key).Nodup := (List.nodup_cons.mp (by simpa using hnd)).2
    have hhead : key e ∉ t.map key := (List.nodup_cons.mp (by simpa using hnd)).1
    have hfresh' : ∀ x ∈ t, key x ∉ dkeys (acc ++ [(key e, qty e)]) := by
      intro x hx hmem
      simp [dkeys] at hmem
      rcases hmem with hmem | hmem
      · exact hfresh x (by simp [hx]) (by simp [dkeys]; exact hmem)
      · exact hhead (by rw [← hmem]; exact List.mem_map_of_mem key hx)
    simp only [List.foldl_cons, hput, ih (acc ++ [(key e, qty e)]) hnd' hfresh']
    simp

/-- The combined `initialize` loop splits into its slot and baseline
halves. -/
theorem foldl_initStep_split (entries : List BagModifyEvent) :
    ∀ sl bl, entries.foldl initStep (sl, bl)
      = (entries.foldl (fun m e => dput m (e.page_id, e.slot_id, e.item_id) e.quantity) sl,
         entries.foldl (fun m e => dbump m e.item_id e.quantity) bl) := by
  induction entries with
  | nil => intro sl bl; rfl
  | cons e t ih => intro sl bl; simp [List.foldl_cons, initStep, ih]



/-- Evaluating the diff loop of `process_modifications`: on nodup ids, the
final baseline entry of every visited id is its current total, and
unvisited entries are untouched. -/
theorem dget0_foldl_diffStep (totals : List (String × ℤ)) :
    ∀ (ids : List String) (acc : List (String × ℤ) × List (String × ℤ)) (it : String),
      ids.Nodup →
      dget0 (ids.foldl (diffStep totals) acc).2 it
        = if it ∈ ids then dget0 totals it else dget0 acc.2 it := by
  intro ids
  induction ids with
  | nil => intro acc it _; simp
  | cons id0 rest ih =>
    intro acc it hnd
    have hnd' := (List.nodup_cons.mp hnd).2
    have hid0 : id0 ∉ rest := (List.nodup_cons.mp hnd).1
    rw [List.foldl_cons, ih (diffStep totals acc id0) it hnd']
    by_cases hr : it ∈ rest
    · simp [hr, List.mem_cons.mpr (Or.inr hr)]
    · by_cases h0 : it = id0
      · subst h0
        rw [if_neg hr, if_pos (List.mem_cons_self _ _)]
        simp only [diffStep]
        by_cases hz : dget0 totals it - dget0 acc.2 it = 0
        · rw [if_pos hz]
          omega
        · rw [if_neg hz]
          exact dget0_dput_self _ _ _
      · have hnotc : it ∉ (id0 :: rest) := by simp [h0, hr]
        rw [if_neg hr, if_neg hnotc]
        simp only [diffStep]
        by_cases hz : dget0 totals id0 - dget0 acc.2 id0 = 0
        · rw [if_pos hz]
        · rw [if_neg hz]
          exact dget0_dput_ne _ _ h0

/-- The `initialize` establishes the invariant whenever its entries have
pairwise-distinct slot keys and colon-free item ids. -/
theorem BagInv_initBagData (st : BagSt) (entries : List BagModifyEvent)
    (hnd : (entries.map (fun e => ((e.page_id, e.slot_id, e.item_id) : SlotKey))).Nodup)
    (hcf : ∀ e ∈ entries, (':' : Char) ∉ e.item_id.toList) :
    BagInv (initBagData st entries).2 := by
  intro _ it
  show dget0 (entries.foldl initStep ([], [])).2 it
      = dget0 (totalsOf (entries.foldl initStep ([], [])).1) it
  rw [foldl_initStep_split entries [] []]
  have hbase : dget0 (entries.foldl (fun m e => dbump m e.item_id e.quantity) []) it
      = ((entries.filter (fun e => decide (e.item_id = it))).map (fun e => e.quantity)).sum := by
    rw [dget0_foldl_dbump (fun e => e.item_id) (fun e => e.quantity) entries [] it]
    simp [dget0, dget]
  have hslots : entries.foldl
        (fun m e => dput m (e.page_id, e.slot_id, e.item_id) e.quantity) []
      = entries.map (fun e => (((e.page_id, e.slot_id, e.item_id) : SlotKey), e.quantity)) := by
    have := foldl_dput_eq_append (fun e => ((e.page_id, e.slot_id, e.item_id) : SlotKey))
      (fun e => e.quantity) entries [] hnd (by intro e _; simp [dkeys])
    simpa using this
  rw [hbase, hslots]
  unfold totalsOf
  rw [dget0_foldl_dbump (fun kv => keyItem kv.1) Prod.snd _ [] it]
  rw [List.filter_map, List.map_map]
  have hpred : ∀ e ∈ entries,
      (decide (keyItem (e.page_id, e.slot_id, e.item_id) = it))
        = decide (e.item_id = it) := by
    intro e he
    rw [keyItem_eq_of_no_colon (k := (e.page_id, e.slot_id, e.item_id)) (hcf e he)]
  have hfil : entries.filter
        ((fun kv => decide (keyItem kv.1 = it)) ∘
          (fun e => (((e.page_id, e.slot_id, e.item_id) : SlotKey), e.quantity)))
      = entries.filter (fun e => decide (e.item_id = it)) := by
    apply List.filter_congr
    intro e he
    simpa using hpred e he
  rw [hfil]
  have hz : dget0 ([] : List (String × ℤ)) it = 0 := rfl
  rw [hz, zero_add]
  rfl

/-- The `process_modifications` (any mutation batch) re-establishes the
invariant. -/
theorem BagInv_process_modifications (st : BagSt) (ms : List BagModifyEvent)
    (h : BagInv st) : BagInv (process_modifications st ms).2 := by
  cases hinit : st.initialized with
  | false => simpa [process_modifications, hinit] using h
  | true =>
    intro _ it
    unfold process_modifications
    rw [hinit]
    simp only [Bool.true_eq_false, if_false]
    set slots2 := ms.foldl
      (fun sl e => dput sl (e.page_id, e.slot_id, e.item_id) e.quantity) st.slots
    set totals := totalsOf slots2
    set ids := (dkeys totals ++ dkeys st.baseline).dedup
    show dget0 (ids.foldl (diffStep totals) ([], st.baseline)).2 it = dget0 totals it
    rw [dget0_foldl_diffStep totals ids ([], st.baseline) it (List.nodup_dedup _)]
    by_cases hmem : it ∈ ids
    · rw [if_pos hmem]
    · rw [if_neg hmem]
      have hmem2 : it ∉ dkeys totals ++ dkeys st.baseline := fun hc =>
        hmem (List.mem_dedup.mpr hc)
      simp only [List.mem_append] at hmem2
      push_neg at hmem2
      show dget0 st.baseline it = dget0 totals it
      rw [dget0_eq_zero_of_not_mem_keys hmem2.2, dget0_eq_zero_of_not_mem_keys hmem2.1]

/-- The diff loop does nothing when every id already has a zero diff. -/
theorem foldl_diffStep_fix (totals baseline : List (String × ℤ)) :
    ∀ (ids : List String), (∀ it ∈ ids, dget0 totals it = dget0 baseline it) →
      ids.foldl (diffStep totals) ([], baseline) = ([], baseline) := by
  intro ids
  induction ids with
  | nil => intro _; rfl
  | cons id0 rest ih =>
    intro hz
    have h0 : dget0 totals id0 - dget0 baseline id0 = 0 := by
      rw [hz id0 (by simp)]; ring
    rw [List.foldl_cons]
    show rest.foldl (diffStep totals) (diffStep totals ([], baseline) id0) = ([], baseline)
    unfold diffStep
    rw [if_pos h0]
    exact ih (fun it hit => hz it (by simp [hit]))

/-- Under the invariant, an empty mutation batch yields an empty diff and
returns the state unchanged. -/
theorem procMods_empty (st : BagSt) (h : BagInv st) :
    process_modifications st [] = ([], st) := by
  cases hinit : st.initialized with
  | false => simp [process_modifications, hinit]
  | true =>
    have hinv := h hinit
    obtain ⟨sl, bl, ini⟩ := st
    simp only at hinit
    subst hinit
    unfold process_modifications
    simp only [Bool.true_eq_false, if_false, List.foldl_nil]
    rw [foldl_diffStep_fix (totalsOf sl) bl _ (fun it _ => (hinv it).symm)]



/-- Every reachable state satisfies the invariant. -/
theorem BagInv_of_reachable {st : BagSt} (h : ReachableBag st) : BagInv st := by
  induction h with
  | base => intro hc; cases hc
  | init st entries hnd hcf _ _ => exact BagInv_initBagData st entries hnd hcf
  | reset st _ _ => intro _ it; rfl
  | mods st ms _ ih => exact BagInv_process_modifications st ms ih
  | clear st _ _ => intro hc; cases hc

/-- Claim C4 (amended): on every reachable inventory-tracker state — with
`initialize` fed full-snapshot entry lists whose slot keys are pairwise
distinct and whose item ids are colon-free — `apply_and_diff([])` returns
an empty delta map and leaves the whole state (baseline included)
unchanged; in particular `initialize(entries)` followed by
`apply_and_diff([])` yields an empty diff for every such entry list. -/
theorem c4_empty_mods_no_diff (st : BagSt) (h : ReachableBag st) :
    process_modifications st [] = ([], st) :=
  procMods_empty st (BagInv_of_reachable h)

/-- Witness for C4 at a concrete reachable state (initialize, then an
empty diff call). -/
theorem c4_empty_mods_no_diff_witness :
    process_modifications (initBagData emptyBag [⟨1, 0, "A", 1000⟩]).2 []
      = ([], (initBagData emptyBag [⟨1, 0, "A", 1000⟩]).2) :=
  c4_empty_mods_no_diff _
    (ReachableBag.init emptyBag [⟨1, 0, "A", 1000⟩] (by decide) (by decide)
      ReachableBag.base)

/-- Counterexample to C4 as stated: `initialize` double-counts entry lists
that repeat a slot key (the slot dict keeps the last quantity, the
baseline adds both), so the very next `apply_and_diff([])` reports a
nonzero delta. -/
theorem c4_counterexample :
    (process_modifications (initBagData emptyBag
        [⟨1, 1, "7", 5⟩, ⟨1, 1, "7", 6⟩]).2 []).1 = [("7", -5)] := by decide

/-! ## Sorted-list machinery for the estimator -/

theorem sortedQ_sorted (l : List ℚ) : (sortedQ l).Sorted (· ≤ ·) :=
  List.sorted_insertionSort _ l

theorem sortedQ_perm (l : List ℚ) : List.Perm (sortedQ l) l :=
  List.perm_insertionSort _ l

theorem sortedQ_length (l : List ℚ) : (sortedQ l).length = l.length :=
  (sortedQ_perm l).length_eq

theorem sortedQ_count (l : List ℚ) (a : ℚ) : (sortedQ l).count a = l.count a :=
  (sortedQ_perm l).count_eq a

theorem sortedQ_mem {x : ℚ} {l : List ℚ} : x ∈ sortedQ l ↔ x ∈ l :=
  (sortedQ_perm l).mem_iff

theorem sorted_getD_le_getD {s : List ℚ} (hs : s.Sorted (· ≤ ·)) {i j : ℕ}
    (hij : i ≤ j) (hj : j < s.length) : s.getD i 0 ≤ s.getD j 0 := by
  have hi : i < s.length := lt_of_le_of_lt hij hj
  rw [List.getD_eq_getElem s 0 hi, List.getD_eq_getElem s 0 hj]
  rcases Nat.eq_or_lt_of_le hij with heq | hlt
  · subst heq
    exact le_refl _
  · exact List.pairwise_iff_getElem.mp hs i j hi hj hlt

/-- In a sorted list, a value strictly above the element at `j` occurs
only to its right. -/
theorem count_bound_of_getD_lt {s : List ℚ} {V : ℚ} (hs : s.Sorted (· ≤ ·))
    {j : ℕ} (hj : j < s.length) (hlt : s.getD j 0 < V) :
    s.count V + j + 1 ≤ s.length := by
  have hsplit : s.count V = (s.take (j + 1)).count V + (s.drop (j + 1)).count V := by
    conv_lhs => rw [← List.take_append_drop (j + 1) s]
    rw [List.count_append]
  have h0 : (s.take (j + 1)).count V = 0 := by
    rw [List.count_eq_zero]
    intro hmem
    obtain ⟨i, hi, hgi⟩ := List.mem_iff_getElem.mp hmem
    have hi2 : i < j + 1 := lt_of_lt_of_le hi (by rw [List.length_take]; exact min_le_left _ _)
    have hil : i < s.length := lt_of_le_of_lt (Nat.lt_succ_iff.mp hi2) hj
    rw [List.getElem_take] at hgi
    have hle : s.getD i 0 ≤ s.getD j 0 :=
      sorted_getD_le_getD hs (Nat.lt_succ_iff.mp hi2) hj
    rw [List.getD_eq_getElem s 0 hil, hgi] at hle
    exact absurd (lt_of_le_of_lt hle hlt) (lt_irrefl V)
  have h1 : (s.drop (j + 1)).count V ≤ (s.drop (j + 1)).length :=
    List.count_le_length V _
  have h2 : (s.drop (j + 1)).length = s.length - (j + 1) := List.length_drop _ _
  omega

/-- In a sorted list, a value strictly below the element at `j` occurs
only to its left. -/
theorem count_bound_of_getD_gt {s : List ℚ} {V : ℚ} (hs : s.Sorted (· ≤ ·))
    {j : ℕ} (hj : j < s.length) (hgt : V < s.getD j 0) :
    s.count V ≤ j := by
  have hsplit : s.count V = (s.take j).count V + (s.drop j).count V := by
    conv_lhs => rw [← List.take_append_drop j s]
    rw [List.count_append]
  have h0 : (s.drop j).count V = 0 := by
    rw [List.count_eq_zero]
    intro hmem
    obtain ⟨i, hi, hgi⟩ := List.mem_iff_getElem.mp hmem
    rw [List.getElem_drop] at hgi
    have hji : j + i < s.length := by
      have := hi
      rw [List.length_drop] at this
      omega
    have hle : s.getD j 0 ≤ s.getD (j + i) 0 :=
      sorted_getD_le_getD hs (Nat.le_add_right _ _) hji
    rw [List.getD_eq_getElem s 0 hji, hgi] at hle
    exact absurd (lt_of_lt_of_le hgt hle) (lt_irrefl V)
  have h1 : (s.take j).count V ≤ (s.take j).length := List.count_le_length V _
  have h2 : (s.take j).length = min j s.length := List.length_take _ _
  omega

/-- The majority-block property of sorted lists: when a value fills more
than half the list, every position from `length - count` up to `count - 1`
holds that value. -/
theorem sorted_getD_eq_of_majority {s : List ℚ} {V : ℚ} (hs : s.Sorted (· ≤ ·))
    {j : ℕ} (hj : j < s.length) (hc1 : s.length ≤ j + s.count V)
    (hc2 : j < s.count V) : s.getD j 0 = V := by
  rcases lt_trichotomy (s.getD j 0) V with hlt | heq | hgt
  · have := count_bound_of_getD_lt hs hj hlt
    omega
  · exact heq
  · have := count_bound_of_getD_gt hs hj hgt
    omega

/-- A strict-majority value is the median. -/
theorem medianOf_eq_of_majority {l : List ℚ} {V : ℚ}
    (hmaj : l.length < 2 * l.count V) : medianOf l = V := by
  have hkn : l.count V ≤ l.length := List.count_le_length V l
  have hlen : (sortedQ l).length = l.length := sortedQ_length l
  have hcnt : (sortedQ l).count V = l.count V := sortedQ_count l V
  have hs := sortedQ_sorted l
  unfold medianOf
  by_cases hpar : (sortedQ l).length % 2 = 0
  · rw [if_pos hpar]
    have h1 : (sortedQ l).getD ((sortedQ l).length / 2) 0 = V :=
      sorted_getD_eq_of_majority hs (by omega) (by omega) (by omega)
    have h2 : (sortedQ l).getD ((sortedQ l).length / 2 - 1) 0 = V :=
      sorted_getD_eq_of_majority hs (by omega) (by omega) (by omega)
    rw [h1, h2]
    ring
  · rw [if_neg hpar]
    exact sorted_getD_eq_of_majority hs (by omega) (by omega) (by omega)

/-- With a strict-majority value, more than half the absolute deviations
from the median are zero, so the MAD is zero. -/
theorem madOf_eq_zero_of_majority {l : List ℚ} {V : ℚ}
    (hmaj : l.length < 2 * l.count V) : madOf l = 0 := by
  have hmed : medianOf l = V := medianOf_eq_of_majority hmaj
  have hlen : (deviationsOf l).length = l.length := by
    simp [deviationsOf, sortedQ_length]
  have hcnt : l.count V ≤ (deviationsOf l).count 0 := by
    rw [← sortedQ_count l V]
    unfold deviationsOf
    rw [List.count_eq_countP, List.count_eq_countP, List.countP_map]
    apply List.countP_mono_left
    intro x _ hx
    have hxV : x = V := by simpa using hx
    simp [Function.comp, hxV, hmed]
  exact medianOf_eq_of_majority (V := 0) (by omega)

/-! ## C5 -/

/-- A non-pinned item id misses the fixed-price dict. -/
theorem dget_fixed_eq_none {item : String} (h : item ≠ "100300") :
    dget FIXED_PRICES item = none := by
  have : ¬ ("100300" : String) = item := fun hh => h hh.symm
  simp [FIXED_PRICES, dget, this]

/-- Under the hypotheses of C5 (with positive majority value), the MAD is
zero and the threshold filter retains exactly the copies of the majority
value. -/
theorem filteredOf_eq_replicate_of_majority {l : List ℚ} {V : ℚ} (hV : 0 < V)
    (hmaj : l.length < 2 * l.count V)
    (hout : ∀ p ∈ l, p ≠ V → V * (5 / 100) < |p - V|) :
    filteredOf l = List.replicate (l.count V) V := by
  have hmed : medianOf l = V := medianOf_eq_of_majority hmaj
  have hmad : madOf l = 0 := madOf_eq_zero_of_majority hmaj
  unfold filteredOf
  rw [hmad, if_pos rfl, hmed, if_pos hV]
  have hfc : (sortedQ l).filter (fun p => decide (|p - V| ≤ V * (5 / 100)))
      = (sortedQ l).filter (· == V) := by
    apply List.filter_congr
    intro x hx
    by_cases hxV : x = V
    · subst hxV
      simp [abs_nonneg, mul_nonneg hV.le]
      positivity
    · have hgt := hout x (sortedQ_mem.mp hx) hxV
      simp [hxV, not_le.mpr hgt]
  rw [hfc, List.filter_beq, sortedQ_count]

/-- Claim C5 (amended): for a non-pinned item and at least 5 samples, if a
value `V > 0` is a strict majority of the samples and every other sample
deviates from `V` by more than 5% of `V`, then `update_from_search`
returns exactly `V` (in particular within the claimed 5% tolerance). -/
theorem c5_majority_estimate (pm : PMSt) (item : String) (hitem : item ≠ "100300")
    (l : List ℚ) (V : ℚ) (h5 : 5 ≤ l.length) (hV : 0 < V)
    (hmaj : l.length < 2 * l.count V)
    (hout : ∀ p ∈ l, p ≠ V → V * (5 / 100) < |p - V|) :
    (update_from_search pm item l).1 = V := by
  have hfix := dget_fixed_eq_none hitem
  have hne : l ≠ [] := by
    intro h
    rw [h] at h5
    simp at h5
  have hn5 : ¬ l.length < 5 := by omega
  have hk : 0 < l.count V := by omega
  have hfil := filteredOf_eq_replicate_of_majority hV hmaj hout
  have hrep : (List.replicate (l.count V) V) ≠ [] := by
    intro h
    have := congrArg List.length h
    simp at this
    omega
  have hkz : ((l.count V : ℚ)) ≠ 0 := Nat.cast_ne_zero.mpr (by omega)
  unfold update_from_search
  rw [hfix]
  simp only [if_neg hne, if_neg hn5, hfil, if_neg hrep]
  rw [List.sum_replicate, List.length_replicate, nsmul_eq_mul, mul_div_assoc,
    mul_comm, div_mul_cancel₀ V hkz]

/-- Witness for C5 at the spec's own scenario:
`update_from_search("B", [10,10,10,10,9999])` returns exactly 10. -/
theorem c5_majority_estimate_witness :
    (update_from_search [] ("B") [10, 10, 10, 10, 9999]).1 = 10 :=
  c5_majority_estimate [] ("B") (by decide) [10, 10, 10, 10, 9999] 10
    (by norm_num) (by norm_num) (by norm_num)
    (by norm_num [lt_abs])

/-- Counterexample to C5 as stated: with majority value `V = 0` the claim
demands an estimate within `0.05 · 0 = 0` of 0, but on
`[0,0,0,0,1/200]` the zero-MAD branch falls back to the absolute floor
0.01, retains the outlier `1/200`, and returns `1/1000 ≠ 0`. -/
theorem c5_counterexample :
    5 ≤ ([0, 0, 0, 0, 1/200] : List ℚ).length ∧
    ([0, 0, 0, 0, 1/200] : List ℚ).length
        < 2 * ([0, 0, 0, 0, 1/200] : List ℚ).count 0 ∧
    (∀ p ∈ ([0, 0, 0, 0, 1/200] : List ℚ), p ≠ 0 → (0 : ℚ) * (5 / 100) < |p - 0|) ∧
    (update_from_search [] ("B") [0, 0, 0, 0, 1/200]).1 = 1/1000 ∧
    ¬ |(update_from_search [] ("B") [0, 0, 0, 0, 1/200]).1 - 0| ≤ 0 * (5 / 100) := by
  have hnb : ¬ ("100300" : String) = "B" := by decide
  have habs : |(1 : ℚ)/200| = 1/200 := abs_of_pos (by norm_num)
  have hnil : ¬ ([0, 0, 0, 0, (1 : ℚ)/200] = []) := by simp
  have heval : (update_from_search [] ("B") [0, 0, 0, 0, 1/200]).1 = 1/1000 := by
    norm_num [update_from_search, dget, FIXED_PRICES, filteredOf, madOf, medianOf,
      deviationsOf, sortedQ, List.insertionSort, List.orderedInsert,
      List.filter_cons, decide_eq_true_eq, habs, hnb, hnil]
  refine ⟨by norm_num, by norm_num, ?_, heval, ?_⟩
  · intro p hp hne
    rw [zero_mul, sub_zero, abs_pos]
    exact hne
  · rw [heval]
    norm_num [habs]

/-! ## C6 -/

/-- The median of a list is bounded below by any lower bound of its
elements. -/
theorem le_medianOf_of_forall_le {d : List ℚ} {c : ℚ} (hne : d ≠ [])
    (h : ∀ x ∈ d, c ≤ x) : c ≤ medianOf d := by
  have hn : 0 < (sortedQ d).length := by
    rw [sortedQ_length]
    exact List.length_pos.mpr hne
  have hmem : ∀ i, i < (sortedQ d).length → c ≤ (sortedQ d).getD i 0 := by
    intro i hi
    rw [List.getD_eq_getElem _ 0 hi]
    exact h _ (sortedQ_mem.mp (List.getElem_mem hi))
  unfold medianOf
  by_cases hpar : (sortedQ d).length % 2 = 0
  · rw [if_pos hpar]
    have h1 := hmem ((sortedQ d).length / 2 - 1) (by omega)
    have h2 := hmem ((sortedQ d).length / 2) (by omega)
    linarith
  · rw [if_neg hpar]
    exact hmem _ (by omega)

/-- The MAD is nonnegative. -/
theorem madOf_nonneg (l : List ℚ) (hne : l ≠ []) : 0 ≤ madOf l := by
  apply le_medianOf_of_forall_le
  · have hlen : (deviationsOf l).length = l.length := by
      simp [deviationsOf, sortedQ_length]
    intro hcon
    rw [hcon] at hlen
    have := List.length_pos.mpr hne
    simp at hlen
    omega
  · intro x hx
    obtain ⟨p, _, rfl⟩ := List.mem_map.mp hx
    exact abs_nonneg _

/-- The deviation of the upper-middle element of the sorted samples never
exceeds the MAD: for odd length it is zero, and for even length it is half
the middle gap, which bounds every deviation from below. -/
theorem middle_dev_le_mad (l : List ℚ) (hne : l ≠ []) :
    |(sortedQ l).getD ((sortedQ l).length / 2) 0 - medianOf l| ≤ madOf l := by
  have hn : 0 < (sortedQ l).length := by
    rw [sortedQ_length]
    exact List.length_pos.mpr hne
  have hs := sortedQ_sorted l
  by_cases hpar : (sortedQ l).length % 2 = 0
  · have hn2 : 2 ≤ (sortedQ l).length := by omega
    have hab : (sortedQ l).getD ((sortedQ l).length / 2 - 1) 0
        ≤ (sortedQ l).getD ((sortedQ l).length / 2) 0 :=
      sorted_getD_le_getD hs (by omega) (by omega)
    have hmed : medianOf l = ((sortedQ l).getD ((sortedQ l).length / 2 - 1) 0
        + (sortedQ l).getD ((sortedQ l).length / 2) 0) / 2 := by
      unfold medianOf
      rw [if_pos hpar]
    have hdnne : deviationsOf l ≠ [] := by
      have hlen : (deviationsOf l).length = l.length := by
        simp [deviationsOf, sortedQ_length]
      intro hcon
      rw [hcon] at hlen
      have := List.length_pos.mpr hne
      simp at hlen
      omega
    have hlow : ∀ y ∈ deviationsOf l,
        ((sortedQ l).getD ((sortedQ l).length / 2) 0
          - (sortedQ l).getD ((sortedQ l).length / 2 - 1) 0) / 2 ≤ y := by
      intro y hy
      obtain ⟨x, hx, rfl⟩ := List.mem_map.mp hy
      obtain ⟨i, hi, hxi⟩ := List.mem_iff_getElem.mp hx
      by_cases hcase : i ≤ (sortedQ l).length / 2 - 1
      · have hxa : x ≤ (sortedQ l).getD ((sortedQ l).length / 2 - 1) 0 := by
          rw [← hxi, ← List.getD_eq_getElem (sortedQ l) 0 hi]
          exact sorted_getD_le_getD hs hcase (by omega)
        have h1 : medianOf l - x ≤ |x - medianOf l| := by
          rw [abs_sub_comm]
          exact le_abs_self _
        rw [hmed] at h1 ⊢
        linarith
      · have hxb : (sortedQ l).getD ((sortedQ l).length / 2) 0 ≤ x := by
          rw [← hxi, ← List.getD_eq_getElem (sortedQ l) 0 hi]
          exact sorted_getD_le_getD hs (by omega) hi
        have h1 : x - medianOf l ≤ |x - medianOf l| := le_abs_self _
        rw [hmed] at h1 ⊢
        linarith
    have hmadge := le_medianOf_of_forall_le hdnne hlow
    have hdev : |(sortedQ l).getD ((sortedQ l).length / 2) 0 - medianOf l|
        = ((sortedQ l).getD ((sortedQ l).length / 2) 0
          - (sortedQ l).getD ((sortedQ l).length / 2 - 1) 0) / 2 := by
      rw [hmed, abs_of_nonneg (by linarith)]
      ring
    rw [hdev]
    exact hmadge
  · have hmed : medianOf l = (sortedQ l).getD ((sortedQ l).length / 2) 0 := by
      unfold medianOf
      rw [if_neg hpar]
    rw [hmed, sub_self, abs_zero]
    exact madOf_nonneg l hne

/-- The robust filter never removes every sample: the upper-middle element
always survives (in both the zero-MAD and the z-score branch), so the
median fallback of `update_from_search` is dead code. -/
theorem filteredOf_ne_nil (l : List ℚ) (hne : l ≠ []) : filteredOf l ≠ [] := by
  have hn : 0 < (sortedQ l).length := by
    rw [sortedQ_length]
    exact List.length_pos.mpr hne
  have hm0mem : (sortedQ l).getD ((sortedQ l).length / 2) 0 ∈ sortedQ l := by
    rw [List.getD_eq_getElem _ 0 (by omega)]
    exact List.getElem_mem _
  have hdev := middle_dev_le_mad l hne
  unfold filteredOf
  by_cases hmad : madOf l = 0
  · rw [if_pos hmad]
    apply List.ne_nil_of_mem (a := (sortedQ l).getD ((sortedQ l).length / 2) 0)
    apply List.mem_filter.mpr
    refine ⟨hm0mem, ?_⟩
    rw [decide_eq_true_eq]
    have h0 : |(sortedQ l).getD ((sortedQ l).length / 2) 0 - medianOf l| = 0 :=
      le_antisymm (hmad ▸ hdev) (abs_nonneg _)
    rw [h0]
    by_cases hmedpos : 0 < medianOf l
    · rw [if_pos hmedpos]
      positivity
    · rw [if_neg hmedpos]
      norm_num
  · rw [if_neg hmad]
    apply List.ne_nil_of_mem (a := (sortedQ l).getD ((sortedQ l).length / 2) 0)
    apply List.mem_filter.mpr
    refine ⟨hm0mem, ?_⟩
    rw [decide_eq_true_eq]
    have hmadpos : 0 < madOf l := lt_of_le_of_ne (madOf_nonneg l hne) (Ne.symm hmad)
    have h1 : 6745 / 10000 * |(sortedQ l).getD ((sortedQ l).length / 2) 0 - medianOf l|
        ≤ 6745 / 10000 * madOf l :=
      mul_le_mul_of_nonneg_left hdev (by norm_num)
    calc 6745 / 10000 * |(sortedQ l).getD ((sortedQ l).length / 2) 0 - medianOf l| / madOf l
        ≤ 6745 / 10000 * madOf l / madOf l := by
          exact (div_le_div_iff_of_pos_right hmadpos).mpr h1
      _ = 6745 / 10000 := by
          rw [mul_div_assoc, div_self (ne_of_gt hmadpos), mul_one]
      _ ≤ 7 / 2 := by norm_num

/-- Claim C6 (amended): for every non-pinned item id, `update_from_search`
never errors and degrades as follows — the empty batch returns 0.0; a
non-empty batch of fewer than 5 samples returns the median; a batch of at
least 5 samples always retains at least one sample after outlier
filtering (so the median fallback for an emptied filter never fires) and
returns the mean of the retained samples. -/
theorem c6_degraded_fallbacks (pm : PMSt) (item : String) (hitem : item ≠ "100300")
    (l : List ℚ) :
    (l = [] → (update_from_search pm item l).1 = 0) ∧
    (l ≠ [] → l.length < 5 → (update_from_search pm item l).1 = medianOf l) ∧
    (5 ≤ l.length →
      filteredOf l ≠ [] ∧
      (update_from_search pm item l).1
        = (filteredOf l).sum / ((filteredOf l).length : ℚ)) := by
  have hfix := dget_fixed_eq_none hitem
  refine ⟨?_, ?_, ?_⟩
  · intro h
    subst h
    unfold update_from_search
    rw [hfix]
    rfl
  · intro hne hlen
    unfold update_from_search
    rw [hfix]
    dsimp only
    rw [if_neg hne, if_pos hlen]
  · intro h5
    have hne : l ≠ [] := by
      intro hh
      rw [hh] at h5
      simp at h5
    have hnl : ¬ l.length < 5 := by omega
    have hfil := filteredOf_ne_nil l hne
    refine ⟨hfil, ?_⟩
    unfold update_from_search
    rw [hfix]
    dsimp only
    rw [if_neg hne, if_neg hnl, if_neg hfil]

/-- Witness for C6: a two-sample batch returns the median. -/
theorem c6_degraded_fallbacks_witness :
    (update_from_search [] ("B") [2, 4]).1 = medianOf [2, 4] :=
  (c6_degraded_fallbacks [] ("B") (by decide) [2, 4]).2.1 (by simp) (by norm_num)

/-- Counterexample to C6 as stated: the empty sample batch makes
`update_from_search` return 0.0, so the estimator does return a zero value
by default. -/
theorem c6_counterexample : (update_from_search [] ("B") []).1 = 0 := by
  have hnb : ¬ ("100300" : String) = "B" := by decide
  simp [update_from_search, dget, FIXED_PRICES, hnb]

/-! ## C7 -/

/-- The `set_price` on any item never touches the pinned entry. -/
theorem set_price_pinned_preserved (pm : PMSt) (item : String) (v : ℚ) :
    dget (set_price pm item v) ("100300") = dget pm ("100300") := by
  by_cases h : item = "100300"
  · subst h
    rfl
  · unfold set_price
    rw [dget_fixed_eq_none h]
    simp only [Option.isSome_none, Bool.false_eq_true, if_false]
    exact dget_dput_ne pm _ (fun hh => h hh.symm)

/-- The `update_from_search` on any item never touches the pinned entry. -/
theorem update_pinned_preserved (pm : PMSt) (item : String) (l : List ℚ) :
    dget (update_from_search pm item l).2 ("100300") = dget pm ("100300") := by
  by_cases h : item = "100300"
  · subst h
    rfl
  · unfold update_from_search
    rw [dget_fixed_eq_none h]
    dsimp only
    by_cases h0 : l = []
    · rw [if_pos h0]
    · rw [if_neg h0]
      by_cases h5 : l.length < 5
      · rw [if_pos h5]
        exact set_price_pinned_preserved pm item _
      · rw [if_neg h5]
        exact set_price_pinned_preserved pm item _

/-- Claim C7: the pinned currency ("100300", pinned at 1.0) is invariant
under the estimator: `set_price` on it is a complete no-op,
`update_from_search` on it returns the pinned value 1.0 and leaves the
store untouched for every sample batch, and neither operation applied to
any other item ever changes the pinned item's stored record. -/
theorem c7_pinned_invariant :
    (∀ (pm : PMSt) (v : ℚ), set_price pm ("100300") v = pm) ∧
    (∀ (pm : PMSt) (l : List ℚ),
      (update_from_search pm ("100300") l).1 = 1 ∧
      (update_from_search pm ("100300") l).2 = pm) ∧
    (∀ (pm : PMSt) (item : String) (v : ℚ),
      dget (set_price pm item v) ("100300") = dget pm ("100300")) ∧
    (∀ (pm : PMSt) (item : String) (l : List ℚ),
      dget (update_from_search pm item l).2 ("100300") = dget pm ("100300")) :=
  ⟨fun _ _ => rfl, fun _ _ => ⟨rfl, rfl⟩,
   set_price_pinned_preserved, update_pinned_preserved⟩

/-! ## C8 -/





theorem backfillDrops_eq_map (item : String) (p : ℚ) (ds : List Drop) :
    backfillDrops item p ds = ds.map (bfDrop item p) := by
  induction ds with
  | nil => rfl
  | cons d t ih => simp [backfillDrops, bfDrop, ih]

theorem backfillMaps_eq_map (item : String) (p : ℚ) (ms : List MapRun) :
    backfillMaps item p ms
      = ms.map (fun m => { m with drops := backfillDrops item p m.drops }) := by
  induction ms with
  | nil => rfl
  | cons m t ih => simp [backfillMaps, ih]

/-- Claim C8: on a price-search event whose item has a known (tax-adjusted)
price `P`, the backfill rewrites the value of every drop of that item —
both in the open map and in every already-closed map of the current
session, null values included — to `P` × quantity, leaves all other drops
and all other engine state unchanged, and hands exactly the updated
session to `save_session` (when a session exists). -/
theorem c8_backfill (cfg : Config) (st : TrackerSt) (item : String) (P : ℚ)
    (h : get_price_with_tax cfg st.prices item = some P) :
    (backfill_prices cfg st item).1.current_map
      = st.current_map.map (bfMap item P) ∧
    (backfill_prices cfg st item).1.current_session
      = st.current_session.map (fun s => { s with maps := s.maps.map (bfMap item P) }) ∧
    (backfill_prices cfg st item).2 = (backfill_prices cfg st item).1.current_session ∧
    (backfill_prices cfg st item).1.prices = st.prices ∧
    (backfill_prices cfg st item).1.bag = st.bag ∧
    (backfill_prices cfg st item).1.is_in_map = st.is_in_map ∧
    (backfill_prices cfg st item).1.is_initialized = st.is_initialized := by
  unfold backfill_prices
  rw [h]
  have hfun : (fun (m : MapRun) => { m with drops := backfillDrops item P m.drops })
      = bfMap item P := by
    funext m
    simp [bfMap, backfillDrops_eq_map]
  cases hses : st.current_session with
  | none =>
    simp [hses, hfun]
  | some ses =>
    simp [hses, hfun, backfillMaps_eq_map]




/-- Witness for C8 at `st8`: the spec's backfill scenario (a drop recorded
with null value gains value price × quantity; the persisted session is the
corrected one). -/
theorem c8_backfill_witness :
    (backfill_prices cfg0 st8 ("C")).1.current_map
      = st8.current_map.map (bfMap ("C") 5) ∧
    (backfill_prices cfg0 st8 ("C")).2
      = (backfill_prices cfg0 st8 ("C")).1.current_session := by
  have h := c8_backfill cfg0 st8 ("C") 5 rfl
  exact ⟨h.1, h.2.2.1⟩

/-! ## C9 -/

/-- Claim C9 (amended): the engine's map-enter handling has no InMap guard —
on every map-change event with entering=true (whatever the current state,
already InMap included) it resets the inventory baseline, replaces the
current `MapRun` with a fresh empty one (the previous run's drops are
discarded, not appended to the session), and lazily creates a session only
when none exists. -/
theorem c9_map_enter_unconditional (st : TrackerSt) (now : ℕ) (sid : String)
    (flag : Bool) :
    (on_map_enter st now sid flag).is_in_map = true ∧
    (on_map_enter st now sid flag).current_map = some ⟨now, none, [], flag, 0⟩ ∧
    (on_map_enter st now sid flag).bag.slots = st.bag.slots ∧
    (on_map_enter st now sid flag).bag.baseline = totalsOf st.bag.slots ∧
    (on_map_enter st now sid flag).current_session
      = some (st.current_session.getD ⟨sid, now, none, []⟩) ∧
    (on_map_enter st now sid flag).prices = st.prices ∧
    (on_map_enter st now sid flag).is_initialized = st.is_initialized :=
  ⟨rfl, rfl, rfl, rfl, rfl, rfl, rfl⟩


/-- Counterexample to C9 as stated: with the engine already InMap, the
map-enter handling replaces the current `MapRun` (discarding its
accumulated drop) and rewrites the inventory baseline, instead of leaving
both unchanged. -/
theorem c9_counterexample :
    st9.is_in_map = true ∧
    (on_map_enter st9 5 ("s2") false).current_map ≠ st9.current_map ∧
    (on_map_enter st9 5 ("s2") false).bag.baseline ≠ st9.bag.baseline := by decide


/-! ## C1 -/



/-- Claim C1: the parser detects the map transition in `c1Chunk` and yields
a `MapChangeEvent`, but the event type carries no league-zone flag (its
only field is `entering`), so the engine's read of
`map_event.is_league_zone` in `process_log_chunk` fails with
`AttributeError` — the run is aborted instead of a `MapRun` opening. -/
theorem c1_league_flag_missing :
    parse_map_change c1Chunk = some { entering := true } ∧
    (∀ e : MapChangeEvent, readLeagueZoneFlag e = .error .attributeError) ∧
    process_log_chunk cfg0 0 ("s") freshTracker c1Chunk = .error .attributeError := by
  refine ⟨by decide, fun _ => rfl, by decide⟩

/-! ## C2 -/





/-- Counterexample to C2 as stated: the parser keeps no pending-request
table.  A request header in one chunk followed by its response values in
the next chunk produces no price event from either call (and `LogParser`
holds no mutable state linking the two calls), where the claimed
correlation-table semantics would emit an event for item 200100 on the
second chunk. -/
theorem c2_counterexample :
    parse_price_search c2ChunkReq = .ok [] ∧
    parse_price_search c2ChunkResp = .ok [] := by decide

/-- A position-wise failing header pattern never matches under the
left-to-right scan. -/
theorem searchHeader_eq_none (s : Str)
    (h : ∀ i, i < s.length → headerMatchAt (s.drop i) = none) :
    searchHeader s = none := by
  induction s with
  | nil => rfl
  | cons c t ih =>
    have h0 : headerMatchAt (c :: t) = none := by
      have := h 0 (by simp)
      simpa using this
    show (match headerMatchAt (c :: t) with
      | some r => some r
      | none => searchHeader t) = none
    rw [h0]
    exact ih (fun i hi => by
      have := h (i + 1) (by simp; omega)
      simpa using this)

/-- Claim C2 (amended): the parser is stateless — each price-search header
carries the item id itself, an event can only arise from a chunk that
contains a request header, and a chunk in which the header pattern matches
at no position yields no price event at all (so no event is ever emitted
for a search whose request was not in the same chunk). -/
theorem c2_events_only_with_header (s : Str)
    (h : ∀ i, i < s.length → headerMatchAt (s.drop i) = none) :
    parse_price_search s = .ok [] := by
  have hs := searchHeader_eq_none s h
  show parsePriceLoop (s.length + 1) s = .ok []
  simp [parsePriceLoop, hs]

/-- Witness for C2 at the response-only chunk. -/
theorem c2_events_only_with_header_witness :
    parse_price_search c2ChunkResp = .ok [] :=
  c2_events_only_with_header c2ChunkResp (by decide)

/-! ## C10 -/

/-- Well-formedness of every event the price-search loop emits: the item
id is never the pinned currency, the sample list is a nonempty slice of at
most 30 prices, and the average is the mean of exactly those retained
samples rounded to four decimals. -/
theorem parsePriceLoop_wellformed : ∀ (fuel : ℕ) (s : Str) (evs : List PriceDataEvent),
    parsePriceLoop fuel s = .ok evs → ∀ e ∈ evs,
      e.item_id ≠ "100300" ∧ e.prices ≠ [] ∧ e.prices.length ≤ 30 ∧
      e.average_price = round4 (e.prices.sum / (e.prices.length : ℚ)) := by
  intro fuel
  induction fuel with
  | zero =>
    intro s evs h e he
    simp only [parsePriceLoop, Except.ok.injEq] at h
    subst h
    cases he
  | succ fuel ih =>
    intro s evs h e he
    rw [parsePriceLoop] at h
    cases hsh : searchHeader s with
    | none =>
      rw [hsh] at h
      simp only [Except.ok.injEq] at h
      subst h
      cases he
    | some trip =>
      obtain ⟨syn, item, rest⟩ := trip
      rw [hsh] at h
      dsimp only at h
      by_cases hcur : item = currencyL
      · rw [if_pos hcur] at h
        exact ih rest evs h e he
      · rw [if_neg hcur] at h
        cases hfp : findPrices (rest.take ((searchHeaderStart rest).getD rest.length)) with
        | error err =>
          rw [hfp] at h
          dsimp only at h
          cases h
        | ok prices =>
          rw [hfp] at h
          dsimp only at h
          cases hrec : parsePriceLoop fuel rest with
          | error err =>
            rw [hrec] at h
            dsimp only at h
            cases h
          | ok tl =>
            rw [hrec] at h
            dsimp only at h
            by_cases hpe : prices = []
            · rw [if_pos hpe] at h
              simp only [Except.ok.injEq] at h
              subst h
              exact ih rest tl hrec e he
            · rw [if_neg hpe] at h
              simp only [Except.ok.injEq] at h
              subst h
              rcases List.mem_cons.mp he with rfl | hmem
              · refine ⟨?_, ?_, ?_, rfl⟩
                · intro hcon
                  apply hcur
                  have hdata := congrArg String.toList hcon
                  exact hdata
                · simp only [ne_eq, List.take_eq_nil_iff]
                  push_neg
                  exact ⟨by omega, hpe⟩
                · rw [List.length_take]
                  exact min_le_left _ _
              · exact ih rest tl hrec e hmem

/-- Claim C10 (amended): every price-search event the parser returns is
well-formed — its item id is never the pinned currency id "100300", its
sample list is nonempty with at most 30 prices, and its `average_price`
is the arithmetic mean of exactly those retained samples rounded to four
decimal places. -/
theorem c10_price_events_wellformed (s : Str) (evs : List PriceDataEvent)
    (h : parse_price_search s = .ok evs) (e : PriceDataEvent) (he : e ∈ evs) :
    e.item_id ≠ "100300" ∧ e.prices ≠ [] ∧ e.prices.length ≤ 30 ∧
    e.average_price = round4 (e.prices.sum / (e.prices.length : ℚ)) :=
  parsePriceLoop_wellformed (s.length + 1) s evs h e he



/-- Counterexample to C10 as stated: on `c10Chunk` the parser emits one
event with samples [1, 1, 2], but its `average_price` is
`round(4/3, 4) = 1.3333 ≠ 4/3`, so the average does not equal the
arithmetic mean of the retained samples. -/
theorem c10_counterexample :
    ¬ (∀ evs, parse_price_search c10Chunk = .ok evs →
        ∀ e ∈ evs, e.average_price = e.prices.sum / (e.prices.length : ℚ)) := by
  intro hclaim
  have hstruct : (parse_price_search c10Chunk).toOption.map
      (List.map (fun e => (e.item_id, e.prices))) = some [("200100", [1, 1, 2])] := by
    decide
  cases hp : parse_price_search c10Chunk with
  | error err =>
    rw [hp] at hstruct
    simp [Except.toOption] at hstruct
  | ok evs =>
    rw [hp] at hstruct
    simp only [Except.toOption, Option.map_some'] at hstruct
    cases evs with
    | nil => simp at hstruct
    | cons e tl =>
      simp only [List.map_cons, Option.some.injEq, List.cons.injEq, Prod.mk.injEq,
        List.map_eq_nil_iff] at hstruct
      obtain ⟨⟨_, hpr⟩, _⟩ := hstruct
      have hwf := parsePriceLoop_wellformed (c10Chunk.length + 1) c10Chunk (e :: tl)
        hp e (List.mem_cons_self e tl)
      have hcl := hclaim (e :: tl) hp e (List.mem_cons_self e tl)
      rw [hwf.2.2.2, hpr] at hcl
      norm_num [round4, rhe] at hcl

/-- Witness for C10 at `c10Chunk`: the event's identifying fields, and the
average-equals-rounded-mean fact instantiated there. -/
theorem c10_price_events_wellformed_witness :
    ((parse_price_search c10Chunk).toOption.getD []).map
        (fun e => (e.item_id, e.prices)) = [("200100", [1, 1, 2])] ∧
    ((parse_price_search c10Chunk).toOption.getD []).map
        (fun e => decide (e.average_price
          = round4 (e.prices.sum / (e.prices.length : ℚ)))) = [true] := by
  refine ⟨by decide, ?_⟩
  cases hp : parse_price_search c10Chunk with
  | error err =>
    have : (parse_price_search c10Chunk).toOption.map
        (List.map (fun e => (e.item_id, e.prices))) = some [("200100", [1, 1, 2])] := by
      decide
    rw [hp] at this
    simp [Except.toOption] at this
  | ok evs =>
    have hstruct : (parse_price_search c10Chunk).toOption.map
        (List.map (fun e => (e.item_id, e.prices))) = some [("200100", [1, 1, 2])] := by
      decide
    rw [hp] at hstruct
    simp only [Except.toOption, Option.map_some'] at hstruct
    cases evs with
    | nil => simp at hstruct
    | cons e tl =>
      simp only [List.map_cons, Option.some.injEq, List.cons.injEq, Prod.mk.injEq,
        List.map_eq_nil_iff] at hstruct
      have hwf := c10_price_events_wellformed c10Chunk (e :: tl) hp e
        (List.mem_cons_self e tl)
      simp only [Except.toOption, Option.getD_some, List.map_cons, hstruct.2,
        List.map_nil, List.cons.injEq, and_true]
      rw [decide_eq_true_eq]
      exact hwf.2.2.2

end TLI
